import Mathlib

set_option maxRecDepth 4000

/-- A spreadsheet cell as seen through pandas: a numeric value, a string, or a
missing value (NaN / NA / None are modelled together as `null`).  Numeric cell
contents are modelled as integers, matching the integer allocation quantities
the program handles. -/
inductive Cell where
  | num (n : Int)
  | str (s : String)
  | null
deriving DecidableEq, Repr

/-- A pandas DataFrame: a list of column labels plus a list of rows.  Cells are
looked up positionally through `colIdx?`; positions missing from a short row
read as `null`, which is exactly the null-filling alignment `pd.concat` uses. -/
structure DF where
  cols : List String
  rows : List (List Cell)
deriving DecidableEq, Repr

/-- Metadata derived for one item column by `extract_alloc`:
`brief_description` from raw row 1 and `overs` from raw row 4. -/
structure MetaEntry where
  brief_description : Cell
  overs : Cell
deriving DecidableEq, Repr

/-- The `meta` dict of the script: item reference to metadata entry. -/
abbrev Meta := List (String × MetaEntry)

/-- Index of the first column carrying the given label (pandas label lookup). -/
def colIdx? : List String → String → Option Nat
  | [], _ => none
  | c :: cs, t => if c = t then some 0 else (colIdx? cs t).map (· + 1)

/-- Read the cell of `row` at column `c` of `df`; an absent label or a short
row reads as `null`. -/
def cellAt (df : DF) (row : List Cell) (c : String) : Cell :=
  match colIdx? df.cols c with
  | some i => row.getD i Cell.null
  | none => Cell.null

def isSpaceChar (c : Char) : Bool :=
  c == ' ' || c == '\t' || c == '\n' || c == '\r'

/-- Python `str.strip()` over the character list of a string. -/
def pyStrip (s : String) : String :=
  String.mk (((s.data.dropWhile isSpaceChar).reverse.dropWhile isSpaceChar).reverse)

/-- Python `str.lower()` restricted to ASCII letters, which is all the program
compares. -/
def pyLower (s : String) : String :=
  String.mk (s.data.map (fun c => if 'A' ≤ c ∧ c ≤ 'Z' then Char.ofNat (c.toNat + 32) else c))

/-- Python `str(cell)` as applied to raw metadata cells: a missing value prints
as "nan", which the script uses as its skip marker. -/
def pyStr : Cell → String
  | .num n => toString n
  | .str s => s
  | .null => "nan"

def digitVal? (c : Char) : Option Nat :=
  if '0' ≤ c ∧ c ≤ '9' then some (c.toNat - '0'.toNat) else none

def parseDigits : List Char → Option Nat → Option Nat
  | [], acc => acc
  | c :: cs, acc =>
    match digitVal? c, acc with
    | some d, some a => parseDigits cs (some (a * 10 + d))
    | some d, none => parseDigits cs (some d)
    | none, _ => none

/-- Integer literal parsing (optional sign, then digits), the integer fragment
of what `pd.to_numeric` accepts for strings. -/
def parseInt? (s : String) : Option Int :=
  match s.data with
  | '-' :: cs => (parseDigits cs none).map (fun n => -(n : Int))
  | cs => (parseDigits cs none).map (fun n => (n : Int))

/-- `pd.to_numeric(errors="coerce")` on one cell in the integer model: numbers
pass through, numeric text parses, anything else becomes null. -/
def coerceCell : Cell → Cell
  | .num n => .num n
  | .str s =>
    match parseInt? s with
    | some n => .num n
    | none => .null
  | .null => .null

/-- The 11 fixed key-attribute column labels of the script. -/
def KEY_COLS : List String :=
  ["Store Number", "Store Name", "Address Line 1", "Address Line 2", "City or Town",
   "County", "Country", "Post Code", "Region / Area", "Location Type", "Trading Format"]

/-- The four summary row labels of the script. -/
def LABELS : List String :=
  ["Brief Description", "Total (inc Overs)", "Total Allocations", "Overs"]

/-- `KEY_COLS.index("Trading Format") + 1`, the 1-based Excel column of the
summary labels. -/
def LABEL_COL_XL : Nat := (colIdx? KEY_COLS "Trading Format").getD 0 + 1

/-- First 1-based Excel column of the item region. -/
def ITEM_START_XL : Nat := LABEL_COL_XL + 1

/-- One uploaded workbook, as the raw cell grid `pd.read_excel(header=None)`
sees it (row 6 is the data header row, data rows start at row 7). -/
structure SrcFile where
  raw : List (List Cell)
deriving DecidableEq, Repr

def rawCell (f : SrcFile) (r c : Nat) : Cell := (f.raw.getD r []).getD c Cell.null

def rawWidth (f : SrcFile) : Nat := f.raw.foldl (fun a r => max a r.length) 0

/-- Column labels of `pd.read_excel(file, header=6)` after the
`df.columns.str.strip()` normalisation of line 42. -/
def headerNames (f : SrcFile) : List String :=
  (f.raw.getD 6 []).map (fun c => pyStrip (pyStr c))

/-- The case-insensitive, whitespace-tolerant search for the store column
(line 43 of the script). -/
def storeCol? (f : SrcFile) : Option String :=
  (headerNames f).find? (fun c => decide (pyLower (pyStrip c) = "store number"))

/-- Rename the located store column to "Store Number"; pandas `rename` renames
every column bearing that label. -/
def renameStore (cols : List String) (sc : String) : List String :=
  cols.map (fun c => if c = sc then "Store Number" else c)

/-- The store-number coercion of line 49 applied to one data row: every
position whose column label is "Store Number" goes through `coerceCell`; the
row is aligned to the column list as pandas aligns it. -/
def coerceStoreRow (cols : List String) (r : List Cell) : List Cell :=
  (List.range cols.length).map (fun i =>
    if cols.getD i "" = "Store Number" then coerceCell (r.getD i Cell.null)
    else r.getD i Cell.null)

/-- The DataFrame half of `extract_alloc` (lines 38-49); `none` models the
`st.error` plus `st.stop()` taken when no store column exists. -/
def extract_df (f : SrcFile) : Option DF :=
  match storeCol? f with
  | none => none
  | some sc =>
    let cols := renameStore (headerNames f) sc
    some ⟨cols, (f.raw.drop 7).map (fun r => coerceStoreRow cols r)⟩

/-- Python dict insertion: replace an existing binding for the key, else add. -/
def metaInsert (m : Meta) (k : String) (v : MetaEntry) : Meta :=
  (m.filter (fun kv => decide (kv.1 ≠ k))) ++ [(k, v)]

def metaLookup : Meta → String → Option MetaEntry
  | [], _ => none
  | kv :: m, t => if kv.1 = t then some kv.2 else metaLookup m t

/-- The metadata half of `extract_alloc` (lines 51-60): scan the raw columns
beyond the key span, keyed by `str(raw.iloc[6, col])`, skipping "nan"; the
description comes from raw row 1 and the overage from raw row 4, defaulting to
0 when that cell is missing. -/
def extract_meta (f : SrcFile) : Meta :=
  (List.range' KEY_COLS.length (rawWidth f - KEY_COLS.length)).foldl
    (fun m col =>
      let ref := pyStr (rawCell f 6 col)
      if ref = "nan" then m
      else
        metaInsert m ref
          ⟨rawCell f 1 col,
           if rawCell f 4 col = Cell.null then Cell.num 0 else rawCell f 4 col⟩)
    []

/-- `extract_alloc` of the script: `none` models the aborted run. -/
def extract_alloc (f : SrcFile) : Option (DF × Meta) :=
  match extract_df f with
  | none => none
  | some df => some (df, extract_meta f)

/-- The extracted DataFrame of a file (meaningful whenever extraction
succeeds). -/
def exDF (f : SrcFile) : DF :=
  match extract_alloc f with
  | some (df, _) => df
  | none => ⟨[], []⟩

/-- Item columns of an extracted table: every column outside `KEY_COLS`. -/
def itemCols (df : DF) : List String :=
  df.cols.filter (fun c => decide (c ∉ KEY_COLS))

/-- One pass of the duplicate-reference loop (lines 168-174).  Result:
(new columns in order, updated seen set, duplicates appended for this file). -/
def classify (seen : List String) : List String → List String × List String × List String
  | [] => ([], seen, [])
  | c :: cs =>
    if c ∈ seen then
      let r := classify seen cs
      (r.1, r.2.1, c :: r.2.2)
    else
      let r := classify (c :: seen) cs
      (c :: r.1, r.2.1, r.2.2)

/-- `df[cs]` label selection; only reached when every label exists. -/
def selectCols (df : DF) (cs : List String) : DF :=
  ⟨cs, df.rows.map (fun r => cs.map (fun c => cellAt df r c))⟩

/-- State threaded through the merge loop: the global seen-reference set, the
accumulated duplicate list, the kept per-file tables, and the global metadata
dict. -/
structure LoopState where
  seen : List String
  dups : List String
  dfs : List DF
  meta : Meta
deriving DecidableEq, Repr

/-- Outcome of the merge loop: `fatal` is the reported missing-store-column
abort, `keyErr` is the uncaught KeyError raised by `df_part[KEY_COLS +
new_cols]` when a key column is absent. -/
inductive LoopOutcome where
  | fatal
  | keyErr
  | ok (st : LoopState)
deriving DecidableEq, Repr

/-- The per-file merge loop (lines 165-180): extract the file, partition its
item columns against the seen set, select key plus new columns, and fold the
filtered metadata into the global dict. -/
def runFiles (st : LoopState) : List SrcFile → LoopOutcome
  | [] => .ok st
  | f :: fs =>
    match extract_alloc f with
    | none => .fatal
    | some (df, metaPart) =>
      let r := classify st.seen (itemCols df)
      if ∀ c ∈ KEY_COLS, c ∈ df.cols then
        runFiles
          ⟨r.2.1, st.dups ++ r.2.2, st.dfs ++ [selectCols df (KEY_COLS ++ r.1)],
           (metaPart.filter (fun kv => decide (kv.1 ∈ r.1))).foldl
             (fun m kv => metaInsert m kv.1 kv.2) st.meta⟩
          fs
      else .keyErr

/-- Accumulate columns left to right keeping first appearances, as
`pd.concat(..., sort=False)` builds its column union. -/
def unionColsAux (acc : List String) : List (List String) → List String
  | [] => acc
  | cs :: rest => unionColsAux (acc ++ cs.filter (fun c => decide (c ∉ acc))) rest

def unionCols (css : List (List String)) : List String := unionColsAux [] css

/-- `pd.concat(dfs, ignore_index=True, sort=False)`: union the columns in
first-appearance order and align every row to the union, filling with null. -/
def concatDF (dfs : List DF) : DF :=
  let cols := unionCols (dfs.map DF.cols)
  ⟨cols, dfs.flatMap (fun df => df.rows.map (fun r => cols.map (fun c => cellAt df r c)))⟩

/-- Line 69: coerce every column outside `KEY_COLS` to numeric. -/
def coerceNonKey (df : DF) : DF :=
  ⟨df.cols, df.rows.map (fun r =>
    (List.range df.cols.length).map (fun i =>
      if df.cols.getD i "" ∈ KEY_COLS then r.getD i Cell.null
      else coerceCell (r.getD i Cell.null)))⟩

/-- The `combined` table of `merge_allocations` after numeric coercion. -/
def combinedOf (dfs : List DF) : DF := coerceNonKey (concatDF dfs)

def asNum? : Cell → Option Int
  | .num n => some n
  | _ => none

/-- The numeric store keys of a table, in row order.  The "Store Number" column
is a nullable-integer column as produced by `extract_alloc`; `groupby` keeps
its default `dropna=True`, so null keys form no group. -/
def storeKeys (df : DF) : List Int :=
  df.rows.filterMap (fun r => asNum? (cellAt df r "Store Number"))

/-- The group keys after `groupby("Store Number")` (sorted ascending, one per
distinct non-null key) followed by `sort_values("Store Number")`. -/
def mergedKeys (dfs : List DF) : List Int :=
  List.insertionSort (· ≤ ·) (storeKeys (combinedOf dfs)).dedup

/-- The rows of `combined` belonging to one store-number group. -/
def storeGroup (dfs : List DF) (k : Int) : List (List Cell) :=
  (combinedOf dfs).rows.filter
    (fun r => decide (cellAt (combinedOf dfs) r "Store Number" = Cell.num k))

/-- `GroupBy.first`: the first entry skipping nulls, null when all are null. -/
def firstNonNull (cs : List Cell) : Cell :=
  match cs.find? (fun c => decide (c ≠ Cell.null)) with
  | some c => c
  | none => Cell.null

def numValD (d : Int) : Cell → Int
  | .num n => n
  | _ => d

/-- `GroupBy.sum` with its defaults: nulls count as 0 and an all-null group
sums to 0. -/
def sumCells (cs : List Cell) : Int := cs.foldl (fun a c => a + numValD 0 c) 0

/-- The aggregated cell for group `k` at column `c`: the group key itself, a
`"first"` aggregate for key columns, a `"sum"` aggregate for item columns
(the `agg_rules` dict of lines 70-71). -/
def aggCell (dfs : List DF) (k : Int) (c : String) : Cell :=
  if c = "Store Number" then Cell.num k
  else if c ∈ KEY_COLS then
    firstNonNull ((storeGroup dfs k).map (fun r => cellAt (combinedOf dfs) r c))
  else Cell.num (sumCells ((storeGroup dfs k).map (fun r => cellAt (combinedOf dfs) r c)))

/-- Column order of the grouped result with `as_index=False`: the key first,
then the `agg_rules` keys in their insertion order. -/
def mergedCols (dfs : List DF) : List String :=
  "Store Number" :: (combinedOf dfs).cols.filter (fun c => decide (c ≠ "Store Number"))

/-- `merge_allocations` (lines 64-76): empty input gives an empty frame;
otherwise concatenate, coerce non-key columns, group by store number with
first/sum rules, sort ascending by store number. -/
def merge_allocations (dfs : List DF) : DF :=
  if dfs = [] then ⟨[], []⟩
  else ⟨mergedCols dfs, (mergedKeys dfs).map (fun k => (mergedCols dfs).map (fun c => aggCell dfs k c))⟩

/-- `df[item].fillna(0).sum()` of line 108 in the integer model. -/
def totalAllocations (df : DF) (item : String) : Int :=
  df.rows.foldl (fun a r => a + numValD 0 (cellAt df r item)) 0

/-- `meta.get(item, dict()).get("overs", 0)` of lines 106-107. -/
def oversValue (meta : Meta) (item : String) : Cell :=
  match metaLookup meta item with
  | some e => e.overs
  | none => Cell.num 0

/-- `meta.get(item, dict()).get("brief_description", "")` of line 111. -/
def descValue (meta : Meta) (item : String) : Cell :=
  match metaLookup meta item with
  | some e => e.brief_description
  | none => Cell.str ""

/-- `total + overs` of line 113; a non-numeric overage would raise a TypeError
in Python, modelled here as null (unreachable for numeric metadata). -/
def cellAddInt (t : Int) : Cell → Cell
  | .num n => .num (t + n)
  | _ => Cell.null

/-- The value written in the summary block at row `label`, item column `item`
(lines 104-117 of `build_workbook`). -/
def summaryCellValue (df : DF) (meta : Meta) (label item : String) : Cell :=
  if label = "Brief Description" then descValue meta item
  else if label = "Total (inc Overs)" then cellAddInt (totalAllocations df item) (oversValue meta item)
  else if label = "Total Allocations" then Cell.num (totalAllocations df item)
  else if label = "Overs" then oversValue meta item
  else Cell.null

/-- openpyxl `get_column_letter`, bijective base-26 digits, fuelled by the
argument itself. -/
def colLetterAux : Nat → Nat → String
  | 0, _ => ""
  | _ + 1, 0 => ""
  | fuel + 1, n => colLetterAux fuel ((n - 1) / 26) ++ String.mk [Char.ofNat (65 + (n - 1) % 26)]

def get_column_letter (n : Nat) : String := colLetterAux n n

/-- Python string comparison: lexicographic over code points. -/
def charListLe : List Char → List Char → Bool
  | [], _ => true
  | _ :: _, [] => false
  | a :: as, b :: bs => if a < b then true else if b < a then false else charListLe as bs

def strLe (a b : String) : Bool := charListLe a.data b.data

/-- Line 93: a 1-based column is hidden iff
`"C" <= get_column_letter(i) <= "J"` compared as Python strings. -/
def colHidden (i : Nat) : Bool :=
  strLe "C" (get_column_letter i) && strLe (get_column_letter i) "J"

/-- The set of hidden 1-based column indices for a sheet of `maxCol` columns
(the loop of lines 90-94). -/
def hiddenCols (maxCol : Nat) : List Nat := (List.range' 1 maxCol).filter colHidden

/-- Result of one whole app invocation: `noFiles` is the `st.stop()` at the
upload prompt, `fatalError` the reported missing-store-column abort, `keyError`
the uncaught KeyError, `output` a produced document (master table, metadata,
duplicate list). -/
inductive RunResult where
  | noFiles
  | fatalError
  | keyError
  | output (master : DF) (meta : Meta) (dups : List String)
deriving DecidableEq, Repr

def initState : LoopState := ⟨[], [], [], []⟩

/-- The whole script run (lines 153-189): stop when no files were uploaded,
else run the merge loop and, on success, merge the kept tables. -/
def runApp (files : List SrcFile) : RunResult :=
  if files = [] then .noFiles
  else
    match runFiles initState files with
    | .fatal => .fatalError
    | .keyErr => .keyError
    | .ok st => .output (merge_allocations st.dfs) st.meta st.dups

/-- The master table of a successful run (empty frame otherwise). -/
def masterOf (files : List SrcFile) : DF :=
  match runApp files with
  | .output m _ _ => m
  | _ => ⟨[], []⟩

/-- The duplicate-reference list reported by a successful run. -/
def dupsOf (files : List SrcFile) : List String :=
  match runApp files with
  | .output _ _ d => d
  | _ => []

/-- The global metadata dict of a successful run. -/
def metaOf (files : List SrcFile) : Meta :=
  match runApp files with
  | .output _ m _ => m
  | _ => []

/-- The kept (collision-filtered) per-file tables of a successful run. -/
def keptTables (files : List SrcFile) : List DF :=
  match runFiles initState files with
  | .ok st => st.dfs
  | _ => []

/-- True exactly when a run produced an output document. -/
def producesOutput : RunResult → Bool
  | .output _ _ _ => true
  | _ => false

/-- The first-row-of-the-group reading of the aggregation contract: the cell of
the earliest group row that is non-null at `c`, null when every group row is
null there. -/
def firstNonNullAt (df : DF) (rows : List (List Cell)) (c : String) : Cell :=
  match rows.find? (fun r => decide (cellAt df r c ≠ Cell.null)) with
  | some r => cellAt df r c
  | none => Cell.null

def padNulls (n : Nat) : List Cell := List.replicate n Cell.null

/-- Shared header row: the 11 key columns followed by one item reference. -/
def hdrRowR1 : List Cell := KEY_COLS.map Cell.str ++ [Cell.str "R1"]

/-- Allocation export carrying item "R1" with quantity 3 for store 101. -/
def fileA : SrcFile :=
  ⟨[[], padNulls 11 ++ [Cell.str "Desc one"], [], [], padNulls 11 ++ [Cell.num 2], [],
    hdrRowR1,
    [Cell.num 101] ++ padNulls 10 ++ [Cell.num 3]]⟩

/-- Allocation export carrying the same item "R1" with quantity 5 for the same
store 101. -/
def fileB : SrcFile :=
  ⟨[[], padNulls 11 ++ [Cell.str "Desc two"], [], [], padNulls 11 ++ [Cell.num 4], [],
    hdrRowR1,
    [Cell.num 101] ++ padNulls 10 ++ [Cell.num 5]]⟩

/-- Allocation export whose first data row has the non-numeric store number
"ABC" and whose second has store number 7. -/
def fileC : SrcFile :=
  ⟨[[], padNulls 11 ++ [Cell.str "Desc one"], [], [], padNulls 11 ++ [Cell.num 2], [],
    hdrRowR1,
    [Cell.str "ABC"] ++ padNulls 10 ++ [Cell.num 1],
    [Cell.num 7] ++ padNulls 10 ++ [Cell.num 2]]⟩

/-- A table whose store-5 group has a null "Store Name" in its first row and
"Alpha" in its second row. -/
def dfC6 : DF :=
  ⟨KEY_COLS,
   [[Cell.num 5] ++ padNulls 10,
    [Cell.num 5, Cell.str "Alpha"] ++ padNulls 9]⟩

/-- A file with no store-number column at all. -/
def badFile : SrcFile :=
  ⟨[[], [], [], [], [], [],
    [Cell.str "Foo", Cell.str "Bar"],
    [Cell.num 1, Cell.num 2]]⟩

/-- A file that has a "Store Number" column but none of the other key
columns. -/
def fileK : SrcFile :=
  ⟨[[], [], [], [], [], [],
    [Cell.str "Store Number", Cell.str "R9"],
    [Cell.num 1, Cell.num 2]]⟩

/-- A concrete main table with one item column "R1". -/
def dfSummary : DF :=
  ⟨KEY_COLS ++ ["R1"],
   [[Cell.num 1] ++ padNulls 10 ++ [Cell.num 3],
    [Cell.num 2] ++ padNulls 10 ++ [Cell.null]]⟩

/-- A concrete metadata dict giving "R1" an overage of 2. -/
def metaSummary : Meta := [("R1", ⟨Cell.str "d", Cell.num 2⟩)]

theorem colIdx?_spec : ∀ (cols : List String) (t : String) (i : Nat),
    colIdx? cols t = some i → i < cols.length ∧ cols.getD i "" = t := by
  intro cols
  induction cols with
  | nil => intro t i h; simp [colIdx?] at h
  | cons c cs ih =>
    intro t i h
    by_cases hc : c = t
    · simp [colIdx?, hc] at h
      subst h
      simpa using hc
    · simp [colIdx?, hc] at h
      obtain ⟨j, hj, hji⟩ := h
      obtain ⟨h1, h2⟩ := ih t j hj
      subst hji
      constructor
      · simpa using h1
      · simpa using h2

theorem colIdx?_isSome_of_mem : ∀ (cols : List String) (t : String),
    t ∈ cols → ∃ i, colIdx? cols t = some i := by
  intro cols
  induction cols with
  | nil => intro t h; simp at h
  | cons c cs ih =>
    intro t h
    by_cases hc : c = t
    · exact ⟨0, by simp [colIdx?, hc]⟩
    · have h' : t ∈ cs := by
        rcases List.mem_cons.mp h with h1 | h1
        · exact absurd h1.symm hc
        · exact h1
      obtain ⟨i, hi⟩ := ih t h'
      exact ⟨i + 1, by simp [colIdx?, hc, hi]⟩

theorem colIdx?_eq_none_of_not_mem : ∀ (cols : List String) (t : String),
    t ∉ cols → colIdx? cols t = none := by
  intro cols
  induction cols with
  | nil => intro t _; rfl
  | cons c cs ih =>
    intro t h
    have hc : c ≠ t := fun e => h (by simp [e])
    have hcs : t ∉ cs := fun e => h (by simp [e])
    simp [colIdx?, hc, ih t hcs]

theorem cellAt_of_not_mem (df : DF) (r : List Cell) (c : String) (h : c ∉ df.cols) :
    cellAt df r c = Cell.null := by
  simp [cellAt, colIdx?_eq_none_of_not_mem df.cols c h]

theorem getD_map_of_colIdx? : ∀ (cols : List String) (f : String → Cell) (t : String) (i : Nat),
    colIdx? cols t = some i → (cols.map f).getD i Cell.null = f t := by
  intro cols
  induction cols with
  | nil => intro f t i h; simp [colIdx?] at h
  | cons c cs ih =>
    intro f t i h
    by_cases hc : c = t
    · simp [colIdx?, hc] at h
      subst h
      simp [hc]
    · simp [colIdx?, hc] at h
      obtain ⟨j, hj, hji⟩ := h
      subst hji
      simpa using ih f t j hj

theorem cellAt_map_self (df : DF) (f : String → Cell) (c : String) (h : c ∈ df.cols) :
    cellAt df (df.cols.map f) c = f c := by
  obtain ⟨i, hi⟩ := colIdx?_isSome_of_mem df.cols c h
  unfold cellAt
  rw [hi]
  exact getD_map_of_colIdx? df.cols f c i hi

theorem getD_range_map (g : Nat → Cell) (n i : Nat) (h : i < n) :
    ((List.range n).map g).getD i Cell.null = g i := by
  rw [List.getD_eq_getElem?_getD]
  simp [List.getElem?_map, List.getElem?_range h]

theorem coerceCell_null_or_num (c : Cell) :
    coerceCell c = Cell.null ∨ ∃ n, coerceCell c = Cell.num n := by
  cases c with
  | num n => exact Or.inr ⟨n, rfl⟩
  | null => exact Or.inl rfl
  | str s =>
    cases h : parseInt? s with
    | none => exact Or.inl (by simp [coerceCell, h])
    | some n => exact Or.inr ⟨n, by simp [coerceCell, h]⟩

theorem classify_new_mem : ∀ (cols seen : List String) (c : String),
    c ∈ (classify seen cols).1 ↔ c ∈ cols ∧ c ∉ seen := by
  intro cols
  induction cols with
  | nil => intro seen c; simp [classify]
  | cons c1 cs ih =>
    intro seen c
    by_cases h1 : c1 ∈ seen
    · simp only [classify, if_pos h1]
      rw [ih seen c]
      constructor
      · rintro ⟨hcs, hns⟩; exact ⟨List.mem_cons_of_mem c1 hcs, hns⟩
      · rintro ⟨hmem, hns⟩
        rcases List.mem_cons.mp hmem with he | hcs
        · exact absurd (he ▸ h1) hns
        · exact ⟨hcs, hns⟩
    · simp only [classify, if_neg h1, List.mem_cons]
      rw [ih (c1 :: seen) c]
      constructor
      · rintro (he | ⟨hcs, hns⟩)
        · exact ⟨Or.inl he, he ▸ h1⟩
        · exact ⟨Or.inr hcs, fun hs => hns (List.mem_cons_of_mem c1 hs)⟩
      · rintro ⟨he | hcs, hns⟩
        · exact Or.inl he
        · by_cases hec : c = c1
          · exact Or.inl hec
          · exact Or.inr ⟨hcs, fun hs => (List.mem_cons.mp hs).elim hec hns⟩

theorem classify_seen_mem : ∀ (cols seen : List String) (c : String),
    c ∈ (classify seen cols).2.1 ↔ c ∈ seen ∨ c ∈ cols := by
  intro cols
  induction cols with
  | nil => intro seen c; simp [classify]
  | cons c1 cs ih =>
    intro seen c
    by_cases h1 : c1 ∈ seen
    · simp only [classify, if_pos h1]
      rw [ih seen c]
      constructor
      · rintro (hs | hcs)
        · exact Or.inl hs
        · exact Or.inr (List.mem_cons_of_mem c1 hcs)
      · rintro (hs | hmem)
        · exact Or.inl hs
        · rcases List.mem_cons.mp hmem with he | hcs
          · exact Or.inl (he ▸ h1)
          · exact Or.inr hcs
    · simp only [classify, if_neg h1]
      rw [ih (c1 :: seen) c]
      simp only [List.mem_cons]
      tauto

theorem classify_dup_of : ∀ (cols seen : List String) (c : String),
    c ∈ cols → c ∈ seen → c ∈ (classify seen cols).2.2 := by
  intro cols
  induction cols with
  | nil => intro seen c h; simp at h
  | cons c1 cs ih =>
    intro seen c hc hs
    by_cases h1 : c1 ∈ seen
    · simp only [classify, if_pos h1, List.mem_cons]
      rcases List.mem_cons.mp hc with he | hcs
      · exact Or.inl he
      · exact Or.inr (ih seen c hcs hs)
    · simp only [classify, if_neg h1]
      rcases List.mem_cons.mp hc with he | hcs
      · exact absurd (he ▸ hs) (he ▸ h1)
      · exact ih (c1 :: seen) c hcs (List.mem_cons_of_mem c1 hs)

theorem classify_new_nodup : ∀ (cols seen : List String), (classify seen cols).1.Nodup := by
  intro cols
  induction cols with
  | nil => intro seen; simp [classify]
  | cons c1 cs ih =>
    intro seen
    by_cases h1 : c1 ∈ seen
    · simp only [classify, if_pos h1]
      exact ih seen
    · simp only [classify, if_neg h1]
      refine List.nodup_cons.mpr ⟨?_, ih (c1 :: seen)⟩
      intro hmem
      exact ((classify_new_mem cs (c1 :: seen) c1).mp hmem).2 (List.mem_cons_self c1 seen)

theorem exDF_eq (f : SrcFile) (df : DF) (m : Meta) (h : extract_alloc f = some (df, m)) :
    exDF f = df := by
  simp [exDF, h]

theorem runFiles_ok_extract : ∀ (fs : List SrcFile) (st st' : LoopState),
    runFiles st fs = .ok st' → ∀ f ∈ fs, extract_alloc f ≠ none := by
  intro fs
  induction fs with
  | nil => intro st st' _ f hf; exact absurd hf (by simp)
  | cons f0 fs ih =>
    intro st st' hrun f hf
    cases hx : extract_alloc f0 with
    | none =>
      simp only [runFiles, hx] at hrun
      exact LoopOutcome.noConfusion hrun
    | some pair =>
      obtain ⟨df, mp⟩ := pair
      simp only [runFiles, hx] at hrun
      by_cases hkey : ∀ c ∈ KEY_COLS, c ∈ df.cols
      · rw [if_pos hkey] at hrun
        rcases List.mem_cons.mp hf with he | hm
        · subst he; simp [hx]
        · exact ih _ _ hrun f hm
      · rw [if_neg hkey] at hrun
        exact LoopOutcome.noConfusion hrun

theorem runFiles_seen_mem : ∀ (fs : List SrcFile) (st st' : LoopState),
    runFiles st fs = .ok st' →
    ∀ c, c ∈ st'.seen ↔ c ∈ st.seen ∨ ∃ f ∈ fs, c ∈ itemCols (exDF f) := by
  intro fs
  induction fs with
  | nil =>
    intro st st' hrun c
    simp only [runFiles] at hrun
    cases hrun
    simp
  | cons f0 fs ih =>
    intro st st' hrun c
    cases hx : extract_alloc f0 with
    | none =>
      simp only [runFiles, hx] at hrun
      exact LoopOutcome.noConfusion hrun
    | some pair =>
      obtain ⟨df, mp⟩ := pair
      simp only [runFiles, hx] at hrun
      by_cases hkey : ∀ c ∈ KEY_COLS, c ∈ df.cols
      · rw [if_pos hkey] at hrun
        rw [ih _ _ hrun c]
        have hseen := classify_seen_mem (itemCols df) st.seen c
        have hex : exDF f0 = df := exDF_eq f0 df mp hx
        simp only [List.exists_mem_cons_iff, hex]
        constructor
        · rintro (hs | hrest)
          · rcases hseen.mp hs with h1 | h1
            · exact Or.inl h1
            · exact Or.inr (Or.inl h1)
          · exact Or.inr (Or.inr hrest)
        · rintro (h1 | h1 | h1)
          · exact Or.inl (hseen.mpr (Or.inl h1))
          · exact Or.inl (hseen.mpr (Or.inr h1))
          · exact Or.inr h1
      · rw [if_neg hkey] at hrun
        exact LoopOutcome.noConfusion hrun

theorem runFiles_dups_mono : ∀ (fs : List SrcFile) (st st' : LoopState),
    runFiles st fs = .ok st' → ∀ d ∈ st.dups, d ∈ st'.dups := by
  intro fs
  induction fs with
  | nil =>
    intro st st' hrun d hd
    simp only [runFiles] at hrun
    cases hrun
    exact hd
  | cons f0 fs ih =>
    intro st st' hrun d hd
    cases hx : extract_alloc f0 with
    | none =>
      simp only [runFiles, hx] at hrun
      exact LoopOutcome.noConfusion hrun
    | some pair =>
      obtain ⟨df, mp⟩ := pair
      simp only [runFiles, hx] at hrun
      by_cases hkey : ∀ c ∈ KEY_COLS, c ∈ df.cols
      · rw [if_pos hkey] at hrun
        exact ih _ _ hrun d (List.mem_append_left _ hd)
      · rw [if_neg hkey] at hrun
        exact LoopOutcome.noConfusion hrun

theorem runFiles_dup_found : ∀ (fs : List SrcFile) (st st' : LoopState),
    runFiles st fs = .ok st' →
    ∀ c, c ∈ st.seen → (∃ f ∈ fs, c ∈ itemCols (exDF f)) → c ∈ st'.dups := by
  intro fs
  induction fs with
  | nil =>
    intro st st' _ c _ hex
    simp at hex
  | cons f0 fs ih =>
    intro st st' hrun c hseen hex
    cases hx : extract_alloc f0 with
    | none =>
      simp only [runFiles, hx] at hrun
      exact LoopOutcome.noConfusion hrun
    | some pair =>
      obtain ⟨df, mp⟩ := pair
      have hdfeq : exDF f0 = df := exDF_eq f0 df mp hx
      simp only [runFiles, hx] at hrun
      by_cases hkey : ∀ c ∈ KEY_COLS, c ∈ df.cols
      · rw [if_pos hkey] at hrun
        rcases List.exists_mem_cons_iff _ _ _ |>.mp hex with h1 | h1
        · have hdup : c ∈ (classify st.seen (itemCols df)).2.2 :=
            classify_dup_of (itemCols df) st.seen c (hdfeq ▸ h1) hseen
          exact runFiles_dups_mono fs _ st' hrun c (List.mem_append_right _ hdup)
        · refine ih _ _ hrun c ?_ h1
          exact (classify_seen_mem (itemCols df) st.seen c).mpr (Or.inl hseen)
      · rw [if_neg hkey] at hrun
        exact LoopOutcome.noConfusion hrun

theorem runFiles_append : ∀ (as bs : List SrcFile) (st : LoopState),
    runFiles st (as ++ bs) =
      match runFiles st as with
      | .ok st1 => runFiles st1 bs
      | .fatal => .fatal
      | .keyErr => .keyErr := by
  intro as
  induction as with
  | nil => intro bs st; simp [runFiles]
  | cons f0 as ih =>
    intro bs st
    cases hx : extract_alloc f0 with
    | none => simp only [List.cons_append, runFiles, hx]
    | some pair =>
      obtain ⟨df, mp⟩ := pair
      simp only [List.cons_append, runFiles, hx]
      by_cases hkey : ∀ c ∈ KEY_COLS, c ∈ df.cols
      · rw [if_pos hkey, if_pos hkey]
        exact ih bs _
      · rw [if_neg hkey, if_neg hkey]

theorem runFiles_fatal_at : ∀ (fs : List SrcFile) (st : LoopState) (i : Nat) (f : SrcFile),
    fs[i]? = some f → extract_alloc f = none →
    (∀ l g, l < i → fs[l]? = some g →
      extract_alloc g ≠ none ∧ ∀ c ∈ KEY_COLS, c ∈ (exDF g).cols) →
    runFiles st fs = .fatal := by
  intro fs
  induction fs with
  | nil => intro st i f hif; simp at hif
  | cons f0 fs ih =>
    intro st i f hif hmiss hprev
    cases i with
    | zero =>
      simp only [List.getElem?_cons_zero, Option.some.injEq] at hif
      subst hif
      simp only [runFiles, hmiss]
    | succ i =>
      simp only [List.getElem?_cons_succ] at hif
      obtain ⟨hx0, hkey0⟩ := hprev 0 f0 (Nat.succ_pos i) (by simp)
      cases hx : extract_alloc f0 with
      | none => exact absurd hx hx0
      | some pair =>
        obtain ⟨df, mp⟩ := pair
        have hdfeq : exDF f0 = df := exDF_eq f0 df mp hx
        simp only [runFiles, hx]
        rw [if_pos (hdfeq ▸ hkey0)]
        exact ih _ i f hif hmiss
          (fun l g hl hg => hprev (l + 1) g (Nat.succ_lt_succ hl) (by simpa using hg))

theorem runFiles_keyErr_at : ∀ (fs : List SrcFile) (st : LoopState) (i : Nat) (f : SrcFile),
    fs[i]? = some f → extract_alloc f ≠ none → (∃ c ∈ KEY_COLS, c ∉ (exDF f).cols) →
    (∀ l g, l < i → fs[l]? = some g →
      extract_alloc g ≠ none ∧ ∀ c ∈ KEY_COLS, c ∈ (exDF g).cols) →
    runFiles st fs = .keyErr := by
  intro fs
  induction fs with
  | nil => intro st i f hif; simp at hif
  | cons f0 fs ih =>
    intro st i f hif hex hkeymiss hprev
    cases i with
    | zero =>
      simp only [List.getElem?_cons_zero, Option.some.injEq] at hif
      subst hif
      cases hx : extract_alloc f0 with
      | none => exact absurd hx hex
      | some pair =>
        obtain ⟨df, mp⟩ := pair
        have hdfeq : exDF f0 = df := exDF_eq f0 df mp hx
        simp only [runFiles, hx]
        have : ¬ ∀ c ∈ KEY_COLS, c ∈ df.cols := by
          obtain ⟨c, hc, hnc⟩ := hkeymiss
          exact fun hall => hnc (hdfeq ▸ hall c hc)
        rw [if_neg this]
    | succ i =>
      simp only [List.getElem?_cons_succ] at hif
      obtain ⟨hx0, hkey0⟩ := hprev 0 f0 (Nat.succ_pos i) (by simp)
      cases hx : extract_alloc f0 with
      | none => exact absurd hx hx0
      | some pair =>
        obtain ⟨df, mp⟩ := pair
        have hdfeq : exDF f0 = df := exDF_eq f0 df mp hx
        simp only [runFiles, hx]
        rw [if_pos (hdfeq ▸ hkey0)]
        exact ih _ i f hif hex hkeymiss
          (fun l g hl hg => hprev (l + 1) g (Nat.succ_lt_succ hl) (by simpa using hg))

theorem runFiles_kept : ∀ (fs : List SrcFile) (st st' : LoopState),
    runFiles st fs = .ok st' →
    ∃ tail : List DF, st'.dfs = st.dfs ++ tail ∧ tail.length = fs.length ∧
      ∀ (k : Nat) (f : SrcFile), fs[k]? = some f →
        ∃ new : List String,
          tail[k]? = some (selectCols (exDF f) (KEY_COLS ++ new)) ∧ new.Nodup ∧
          ∀ c : String, (c ∈ new ↔ c ∈ itemCols (exDF f) ∧ c ∉ st.seen ∧
            ∀ (l : Nat) (g : SrcFile), l < k → fs[l]? = some g → c ∉ itemCols (exDF g)) := by
  intro fs
  induction fs with
  | nil =>
    intro st st' hrun
    simp only [runFiles] at hrun
    cases hrun
    exact ⟨[], by simp, rfl, fun k f hf => by simp at hf⟩
  | cons f0 fs ih =>
    intro st st' hrun
    cases hx : extract_alloc f0 with
    | none => simp only [runFiles, hx] at hrun; exact LoopOutcome.noConfusion hrun
    | some pair =>
      obtain ⟨df, mp⟩ := pair
      have hdfeq : exDF f0 = df := exDF_eq f0 df mp hx
      simp only [runFiles, hx] at hrun
      by_cases hkey : ∀ c ∈ KEY_COLS, c ∈ df.cols
      · rw [if_pos hkey] at hrun
        obtain ⟨tail', heq, hlen, hchar⟩ := ih _ _ hrun
        refine ⟨selectCols df (KEY_COLS ++ (classify st.seen (itemCols df)).1) :: tail', ?_, ?_, ?_⟩
        · rw [heq]
          simp
        · simpa using hlen
        · intro k f hf
          cases k with
          | zero =>
            simp only [List.getElem?_cons_zero, Option.some.injEq] at hf
            subst hf
            refine ⟨(classify st.seen (itemCols df)).1, ?_, classify_new_nodup _ _, ?_⟩
            · simp [hdfeq]
            · intro c
              rw [classify_new_mem (itemCols df) st.seen c, hdfeq]
              constructor
              · rintro ⟨h1, h2⟩
                exact ⟨h1, h2, fun l g hl _ => absurd hl (Nat.not_lt_zero l)⟩
              · rintro ⟨h1, h2, _⟩
                exact ⟨h1, h2⟩
          | succ k =>
            simp only [List.getElem?_cons_succ] at hf
            obtain ⟨new, hnew1, hnew2, hnew3⟩ := hchar k f hf
            refine ⟨new, by simpa using hnew1, hnew2, ?_⟩
            intro c
            rw [hnew3 c]
            have hseen : ∀ x, x ∈ (classify st.seen (itemCols df)).2.1 ↔ x ∈ st.seen ∨ x ∈ itemCols df :=
              fun x => classify_seen_mem (itemCols df) st.seen x
            constructor
            · rintro ⟨h1, h2, h3⟩
              refine ⟨h1, fun hs => h2 ((hseen c).mpr (Or.inl hs)), ?_⟩
              intro l g hl hg
              cases l with
              | zero =>
                simp only [List.getElem?_cons_zero, Option.some.injEq] at hg
                subst hg
                rw [hdfeq]
                exact fun hcd => h2 ((hseen c).mpr (Or.inr hcd))
              | succ l =>
                simp only [List.getElem?_cons_succ] at hg
                exact h3 l g (Nat.lt_of_succ_lt_succ hl) hg
            · rintro ⟨h1, h2, h3⟩
              refine ⟨h1, ?_, fun l g hl hg => h3 (l + 1) g (Nat.succ_lt_succ hl) (by simpa using hg)⟩
              intro hs
              rcases (hseen c).mp hs with h4 | h4
              · exact h2 h4
              · exact h3 0 f0 (Nat.succ_pos k) (by simp) (hdfeq ▸ h4)
      · rw [if_neg hkey] at hrun
        exact LoopOutcome.noConfusion hrun

theorem unionColsAux_mem : ∀ (css : List (List String)) (acc : List String) (c : String),
    c ∈ unionColsAux acc css ↔ c ∈ acc ∨ ∃ cs ∈ css, c ∈ cs := by
  intro css
  induction css with
  | nil => intro acc c; simp [unionColsAux]
  | cons cs0 css ih =>
    intro acc c
    simp only [unionColsAux]
    rw [ih]
    simp only [List.exists_mem_cons_iff]
    constructor
    · rintro (h | h)
      · rcases List.mem_append.mp h with h1 | h1
        · exact Or.inl h1
        · exact Or.inr (Or.inl (List.mem_filter.mp h1).1)
      · exact Or.inr (Or.inr h)
    · rintro (h | h | h)
      · exact Or.inl (List.mem_append_left _ h)
      · by_cases ha : c ∈ acc
        · exact Or.inl (List.mem_append_left _ ha)
        · exact Or.inl (List.mem_append_right _ (List.mem_filter.mpr ⟨h, by simpa using ha⟩))
      · exact Or.inr h

theorem unionColsAux_nodup : ∀ (css : List (List String)) (acc : List String),
    acc.Nodup → (∀ cs ∈ css, cs.Nodup) → (unionColsAux acc css).Nodup := by
  intro css
  induction css with
  | nil => intro acc h _; exact h
  | cons cs0 css ih =>
    intro acc hacc hall
    simp only [unionColsAux]
    refine ih _ ?_ (fun cs hcs => hall cs (List.mem_cons_of_mem _ hcs))
    refine List.Nodup.append hacc ((hall cs0 (List.mem_cons_self _ _)).filter _) ?_
    intro a ha hfa
    exact (by simpa using (List.mem_filter.mp hfa).2 : a ∉ acc) ha

theorem unionCols_mem (css : List (List String)) (c : String) :
    c ∈ unionCols css ↔ ∃ cs ∈ css, c ∈ cs := by
  rw [unionCols, unionColsAux_mem]
  simp

theorem unionCols_nodup (css : List (List String)) (h : ∀ cs ∈ css, cs.Nodup) :
    (unionCols css).Nodup :=
  unionColsAux_nodup css [] List.nodup_nil h

theorem merge_cols (dfs : List DF) (h : dfs ≠ []) :
    (merge_allocations dfs).cols = mergedCols dfs := by
  simp [merge_allocations, h]

theorem merge_rows (dfs : List DF) (h : dfs ≠ []) :
    (merge_allocations dfs).rows =
      (mergedKeys dfs).map (fun k => (mergedCols dfs).map (fun c => aggCell dfs k c)) := by
  simp [merge_allocations, h]

theorem storeNumber_mem_mergedCols (dfs : List DF) : "Store Number" ∈ mergedCols dfs :=
  List.mem_cons_self _ _

theorem aggCell_store (dfs : List DF) (k : Int) : aggCell dfs k "Store Number" = Cell.num k := by
  simp [aggCell]

theorem merged_row_cellAt (dfs : List DF) (h : dfs ≠ []) (k : Int) (c : String)
    (hc : c ∈ mergedCols dfs) :
    cellAt (merge_allocations dfs) ((mergedCols dfs).map (fun c => aggCell dfs k c)) c =
      aggCell dfs k c := by
  have hcols : (merge_allocations dfs).cols = mergedCols dfs := merge_cols dfs h
  have hmap := cellAt_map_self (merge_allocations dfs) (fun c => aggCell dfs k c) c
    (by rw [hcols]; exact hc)
  rw [hcols] at hmap
  exact hmap

theorem merged_rows_mem (dfs : List DF) (row : List Cell)
    (h : row ∈ (merge_allocations dfs).rows) :
    dfs ≠ [] ∧ ∃ k ∈ mergedKeys dfs, row = (mergedCols dfs).map (fun c => aggCell dfs k c) := by
  by_cases hd : dfs = []
  · subst hd; simp [merge_allocations] at h
  · rw [merge_rows dfs hd] at h
    obtain ⟨k, hk, hrow⟩ := List.mem_map.mp h
    exact ⟨hd, k, hk, hrow.symm⟩

theorem merged_row_storeCell (dfs : List DF) (h : dfs ≠ []) (k : Int) :
    cellAt (merge_allocations dfs) ((mergedCols dfs).map (fun c => aggCell dfs k c))
      "Store Number" = Cell.num k := by
  rw [merged_row_cellAt dfs h k _ (storeNumber_mem_mergedCols dfs), aggCell_store]

theorem filterMap_map_eq_self (l : List Int) (f : Int → List Cell) (g : List Cell → Option Int)
    (h : ∀ k, g (f k) = some k) : (l.map f).filterMap g = l := by
  induction l with
  | nil => rfl
  | cons a l ih => simp [List.filterMap_cons, h, ih]

theorem storeKeys_merged (dfs : List DF) (h : dfs ≠ []) :
    storeKeys (merge_allocations dfs) = mergedKeys dfs := by
  unfold storeKeys
  rw [merge_rows dfs h]
  exact filterMap_map_eq_self _ _ _ (fun k => by rw [merged_row_storeCell dfs h k]; rfl)

theorem mergedKeys_sorted (dfs : List DF) : List.Sorted (· ≤ ·) (mergedKeys dfs) :=
  List.sorted_insertionSort _ _

theorem mergedKeys_nodup (dfs : List DF) : (mergedKeys dfs).Nodup :=
  ((List.perm_insertionSort _ _).nodup_iff).mpr (List.nodup_dedup _)

theorem find?_map_cellAt (df : DF) (c : String) : ∀ (rows : List (List Cell)),
    (rows.map (fun r => cellAt df r c)).find? (fun x => decide (x ≠ Cell.null)) =
      (rows.find? (fun r => decide (cellAt df r c ≠ Cell.null))).map (fun r => cellAt df r c) := by
  intro rows
  induction rows with
  | nil => rfl
  | cons r rs ih =>
    by_cases h : cellAt df r c = Cell.null
    · have h1 : decide (cellAt df r c ≠ Cell.null) = false := by simp [h]
      simp only [List.map_cons, List.find?_cons, h1]
      exact ih
    · have h1 : decide (cellAt df r c ≠ Cell.null) = true := by simp [h]
      simp only [List.map_cons, List.find?_cons, h1]
      rfl

theorem firstNonNull_eq_firstNonNullAt (df : DF) (rows : List (List Cell)) (c : String) :
    firstNonNull (rows.map (fun r => cellAt df r c)) = firstNonNullAt df rows c := by
  unfold firstNonNull firstNonNullAt
  rw [find?_map_cellAt df c rows]
  cases rows.find? (fun r => decide (cellAt df r c ≠ Cell.null)) with
  | none => rfl
  | some r => rfl

theorem firstNonNullAt_not_mem (df : DF) (rows : List (List Cell)) (c : String)
    (h : c ∉ df.cols) : firstNonNullAt df rows c = Cell.null := by
  unfold firstNonNullAt
  have hnone : rows.find? (fun r => decide (cellAt df r c ≠ Cell.null)) = none := by
    rw [List.find?_eq_none]
    intro r _
    simp [cellAt_of_not_mem df r c h]
  rw [hnone]

theorem extract_alloc_some (f : SrcFile) (df : DF) (m : Meta)
    (h : extract_alloc f = some (df, m)) :
    ∃ sc, storeCol? f = some sc ∧
      df.cols = renameStore (headerNames f) sc ∧
      df.rows = (f.raw.drop 7).map
        (fun r => coerceStoreRow (renameStore (headerNames f) sc) r) := by
  unfold extract_alloc extract_df at h
  cases hsc : storeCol? f with
  | none => rw [hsc] at h; exact Option.noConfusion h
  | some sc =>
    rw [hsc] at h
    simp only [Option.some.injEq, Prod.mk.injEq] at h
    obtain ⟨hdf, _⟩ := h
    exact ⟨sc, rfl, by rw [← hdf], by rw [← hdf]⟩

theorem storeNumber_mem_extract (f : SrcFile) (df : DF) (m : Meta)
    (h : extract_alloc f = some (df, m)) : "Store Number" ∈ df.cols := by
  obtain ⟨sc, hsc, hcols, _⟩ := extract_alloc_some f df m h
  have hmem : sc ∈ headerNames f := List.mem_of_find?_eq_some hsc
  rw [hcols]
  exact List.mem_map.mpr ⟨sc, hmem, by simp⟩

theorem extract_store_cell (f : SrcFile) (df : DF) (m : Meta)
    (h : extract_alloc f = some (df, m)) (row : List Cell) (hrow : row ∈ df.rows) :
    ∃ v, cellAt df row "Store Number" = coerceCell v := by
  obtain ⟨sc, hsc, hcols, hrows⟩ := extract_alloc_some f df m h
  obtain ⟨i, hi⟩ := colIdx?_isSome_of_mem df.cols "Store Number" (storeNumber_mem_extract f df m h)
  obtain ⟨hlen, hgd⟩ := colIdx?_spec df.cols "Store Number" i hi
  rw [hrows] at hrow
  obtain ⟨r0, hr0mem, hr0⟩ := List.mem_map.mp hrow
  refine ⟨r0.getD i Cell.null, ?_⟩
  rw [← hr0]
  simp only [cellAt, hi]
  unfold coerceStoreRow
  rw [← hcols]
  rw [getD_range_map _ df.cols.length i hlen]
  rw [if_pos hgd]

/-- C1: for every non-empty list of extracted allocation tables, the table
produced by `merge_allocations` has a store-number column whose values, read in
row order, are sorted ascending with no duplicates. -/
theorem c1_merged_store_sorted_nodup (dfs : List DF) (h : dfs ≠ []) :
    "Store Number" ∈ (merge_allocations dfs).cols ∧
    List.Sorted (· ≤ ·) (storeKeys (merge_allocations dfs)) ∧
    (storeKeys (merge_allocations dfs)).Nodup := by
  refine ⟨?_, ?_, ?_⟩
  · rw [merge_cols dfs h]
    exact storeNumber_mem_mergedCols dfs
  · rw [storeKeys_merged dfs h]
    exact mergedKeys_sorted dfs
  · rw [storeKeys_merged dfs h]
    exact mergedKeys_nodup dfs

theorem c1_witness :
    "Store Number" ∈ (merge_allocations [exDF fileA]).cols ∧
    List.Sorted (· ≤ ·) (storeKeys (merge_allocations [exDF fileA])) ∧
    (storeKeys (merge_allocations [exDF fileA])).Nodup :=
  c1_merged_store_sorted_nodup [exDF fileA] (by decide)

/-- C3: for every item column of the summary block, the "Total (inc Overs)"
cell equals the "Total Allocations" cell plus the "Overs" cell exactly, where
"Total Allocations" sums the column with nulls as 0 and "Overs" is the
(numeric) metadata overage, 0 when absent. -/
theorem c3_total_inc_overs (df : DF) (meta : Meta) (item : String) (k : Int)
    (h : oversValue meta item = Cell.num k) :
    summaryCellValue df meta "Total (inc Overs)" item =
      Cell.num (totalAllocations df item + k) ∧
    summaryCellValue df meta "Total Allocations" item =
      Cell.num (totalAllocations df item) ∧
    summaryCellValue df meta "Overs" item = Cell.num k := by
  refine ⟨?_, ?_, ?_⟩ <;> simp [summaryCellValue, h, cellAddInt]

theorem c3_witness :
    summaryCellValue dfSummary metaSummary "Total (inc Overs)" "R1" =
      Cell.num (totalAllocations dfSummary "R1" + 2) ∧
    summaryCellValue dfSummary metaSummary "Total Allocations" "R1" =
      Cell.num (totalAllocations dfSummary "R1") ∧
    summaryCellValue dfSummary metaSummary "Overs" "R1" = Cell.num 2 :=
  c3_total_inc_overs dfSummary metaSummary "R1" 2 (by decide)

/-- C4 counterexample: store 101 appears in two uploaded files with quantities
3 and 5 under the same reference "R1"; the pipeline's merged row shows 3, not
the claimed 8. -/
theorem c4_counterexample :
    cellAt (exDF fileA) ((exDF fileA).rows.getD 0 []) "R1" = Cell.num 3 ∧
    cellAt (exDF fileB) ((exDF fileB).rows.getD 0 []) "R1" = Cell.num 5 ∧
    cellAt (exDF fileA) ((exDF fileA).rows.getD 0 []) "Store Number" = Cell.num 101 ∧
    cellAt (exDF fileB) ((exDF fileB).rows.getD 0 []) "Store Number" = Cell.num 101 ∧
    cellAt (masterOf [fileA, fileB]) ((masterOf [fileA, fileB]).rows.getD 0 []) "R1" =
      Cell.num 3 ∧
    cellAt (masterOf [fileA, fileB]) ((masterOf [fileA, fileB]).rows.getD 0 []) "R1" ≠
      Cell.num 8 := by
  decide

/-- C4 amended: through the upload pipeline the second occurrence of "R1" is
dropped as a duplicate, so the merged row shows 3 (the first file's value) and
"R1" is reported; only `merge_allocations` applied directly to the two
extracted tables, both retaining the column, sums 3 + 5 = 8. -/
theorem c4_amended :
    cellAt (masterOf [fileA, fileB]) ((masterOf [fileA, fileB]).rows.getD 0 []) "R1" =
      Cell.num 3 ∧
    "R1" ∈ dupsOf [fileA, fileB] ∧
    cellAt (merge_allocations [exDF fileA, exDF fileB])
      ((merge_allocations [exDF fileA, exDF fileB]).rows.getD 0 []) "R1" = Cell.num 8 := by
  decide

/-- C5 counterexample: extraction coerces the non-numeric store number "ABC" to
null without failing, but the null-keyed row is dropped by the grouping: the
extracted table has 2 rows while the merged table keeps only store 7. -/
theorem c5_counterexample :
    cellAt (exDF fileC) ((exDF fileC).rows.getD 0 []) "Store Number" = Cell.null ∧
    (extract_alloc fileC).isSome = true ∧
    (exDF fileC).rows.length = 2 ∧
    (masterOf [fileC]).rows.length = 1 ∧
    storeKeys (masterOf [fileC]) = [7] := by
  decide

/-- C5 amended: a non-numeric store number is coerced to null rather than
failing (every extracted store cell is numeric or null), and rows whose store
number is null are dropped at grouping: every merged row carries a numeric
store key. -/
theorem c5_null_coerced_then_dropped (f : SrcFile) (df : DF) (m : Meta)
    (hdf : extract_alloc f = some (df, m)) (dfs : List DF) :
    (∀ row ∈ df.rows, cellAt df row "Store Number" = Cell.null ∨
      ∃ n, cellAt df row "Store Number" = Cell.num n) ∧
    (∀ row ∈ (merge_allocations dfs).rows,
      ∃ n, cellAt (merge_allocations dfs) row "Store Number" = Cell.num n) := by
  constructor
  · intro row hrow
    obtain ⟨v, hv⟩ := extract_store_cell f df m hdf row hrow
    rw [hv]
    exact coerceCell_null_or_num v
  · intro row hrow
    obtain ⟨hne, k, hk, hroweq⟩ := merged_rows_mem dfs row hrow
    subst hroweq
    exact ⟨k, merged_row_storeCell dfs hne k⟩

theorem c5_witness :
    (cellAt (exDF fileC) ((exDF fileC).rows.getD 0 []) "Store Number" = Cell.null ∨
      ∃ n, cellAt (exDF fileC) ((exDF fileC).rows.getD 0 []) "Store Number" = Cell.num n) ∧
    (∃ n, cellAt (merge_allocations [exDF fileC])
      ((merge_allocations [exDF fileC]).rows.getD 0 []) "Store Number" = Cell.num n) :=
  ⟨(c5_null_coerced_then_dropped fileC (exDF fileC) (extract_meta fileC) (by decide)
      [exDF fileC]).1 ((exDF fileC).rows.getD 0 []) (by decide),
   (c5_null_coerced_then_dropped fileC (exDF fileC) (extract_meta fileC) (by decide)
      [exDF fileC]).2 ((merge_allocations [exDF fileC]).rows.getD 0 []) (by decide)⟩

/-- C6 counterexample: in the single-store group of dfC6 the first row's
"Store Name" is null and the second row's is "Alpha"; the merged row shows
"Alpha", not the first row's null value. -/
theorem c6_counterexample :
    cellAt (combinedOf [dfC6]) ((combinedOf [dfC6]).rows.getD 0 []) "Store Name" =
      Cell.null ∧
    cellAt (merge_allocations [dfC6]) ((merge_allocations [dfC6]).rows.getD 0 [])
      "Store Name" = Cell.str "Alpha" ∧
    Cell.str "Alpha" ≠ Cell.null := by
  decide

/-- C6 amended: each key-attribute column of a merged row carries the first
NON-null value of its store group in concatenation order (null only when every
group row is null there), which differs from the first row's value whenever
that value is null and a later row is not. -/
theorem c6_first_non_null (dfs : List DF) (row : List Cell) (k : Int) (c : String)
    (hrow : row ∈ (merge_allocations dfs).rows)
    (hk : cellAt (merge_allocations dfs) row "Store Number" = Cell.num k)
    (hc : c ∈ KEY_COLS) (hcs : c ≠ "Store Number") :
    cellAt (merge_allocations dfs) row c =
      firstNonNullAt (combinedOf dfs) (storeGroup dfs k) c := by
  obtain ⟨hne, k', hk', hroweq⟩ := merged_rows_mem dfs row hrow
  subst hroweq
  have hkk : k' = k := by
    have hsc := merged_row_storeCell dfs hne k'
    rw [hsc] at hk
    exact Cell.num.inj hk
  subst hkk
  by_cases hmem : c ∈ mergedCols dfs
  · rw [merged_row_cellAt dfs hne k' c hmem]
    unfold aggCell
    rw [if_neg hcs, if_pos hc]
    exact firstNonNull_eq_firstNonNullAt (combinedOf dfs) (storeGroup dfs k') c
  · have hnc : c ∉ (combinedOf dfs).cols := by
      intro hcc
      exact hmem (List.mem_cons_of_mem _ (List.mem_filter.mpr ⟨hcc, by simpa using hcs⟩))
    have hl : cellAt (merge_allocations dfs)
        ((mergedCols dfs).map (fun c => aggCell dfs k' c)) c = Cell.null := by
      apply cellAt_of_not_mem
      rw [merge_cols dfs hne]
      exact hmem
    rw [hl, firstNonNullAt_not_mem _ _ _ hnc]

theorem c6_witness :
    cellAt (merge_allocations [dfC6]) ((merge_allocations [dfC6]).rows.getD 0 [])
      "Store Name" = firstNonNullAt (combinedOf [dfC6]) (storeGroup [dfC6] 5) "Store Name" :=
  c6_first_non_null [dfC6] ((merge_allocations [dfC6]).rows.getD 0 []) 5 "Store Name"
    (by decide) (by decide) (by decide) (by decide)

/-- C7 counterexample: with zero uploaded files the app stops at the upload
prompt and produces no output document at all. -/
theorem c7_counterexample : producesOutput (runApp []) = false := by decide

/-- C7 amended: with zero files the app halts at the informational upload
prompt without producing a document; `merge_allocations` itself, given an empty
list, returns an empty table without error. -/
theorem c7_zero_files_stop : runApp [] = RunResult.noFiles ∧
    merge_allocations [] = DF.mk [] [] := by
  decide

/-- C9: the guard `"C" <= get_column_letter(i) <= "J"` compares column letters
as Python strings, so in a sheet of 79 columns the hidden set is the key
columns 3-10 plus column 79 (letter "CA"), which lies in the item region
starting at column 12. -/
theorem c9_item_column_hidden :
    hiddenCols 79 = [3, 4, 5, 6, 7, 8, 9, 10, 79] ∧
    get_column_letter 79 = "CA" ∧ ITEM_START_XL ≤ 79 := by
  decide

theorem mem_of_getElem?_eq_some {α : Type _} : ∀ (l : List α) (i : Nat) (a : α),
    l[i]? = some a → a ∈ l := by
  intro l
  induction l with
  | nil => intro i a h; simp at h
  | cons x xs ih =>
    intro i a h
    cases i with
    | zero =>
      simp only [List.getElem?_cons_zero, Option.some.injEq] at h
      subst h
      exact List.mem_cons_self _ _
    | succ i =>
      simp only [List.getElem?_cons_succ] at h
      exact List.mem_cons_of_mem _ (ih i a h)

/-- C8: if any source file lacks a store-number column (located
case-insensitively and whitespace-tolerantly), the run never produces an output
document; and when every file before it extracts cleanly and carries all key
columns, the run ends in the reported, user-visible fatal error. -/
theorem c8_missing_store_aborts (files : List SrcFile) (i : Nat) (f : SrcFile)
    (hif : files[i]? = some f) (hmiss : storeCol? f = none) :
    producesOutput (runApp files) = false ∧
    ((∀ l g, l < i → files[l]? = some g →
        extract_alloc g ≠ none ∧ ∀ c ∈ KEY_COLS, c ∈ (exDF g).cols) →
      runApp files = RunResult.fatalError) := by
  have hexn : extract_alloc f = none := by
    unfold extract_alloc extract_df
    rw [hmiss]
  have hne : files ≠ [] := by
    intro he
    rw [he] at hif
    simp at hif
  have hfmem : f ∈ files := mem_of_getElem?_eq_some files i f hif
  constructor
  · unfold runApp
    rw [if_neg hne]
    cases hr : runFiles initState files with
    | ok st => exact absurd hexn (runFiles_ok_extract files initState st hr f hfmem)
    | fatal => rfl
    | keyErr => rfl
  · intro hprev
    unfold runApp
    rw [if_neg hne, runFiles_fatal_at files initState i f hif hexn hprev]

theorem c8_witness :
    producesOutput (runApp [badFile]) = false ∧ runApp [badFile] = RunResult.fatalError :=
  ⟨(c8_missing_store_aborts [badFile] 0 badFile rfl (by decide)).1,
   (c8_missing_store_aborts [badFile] 0 badFile rfl (by decide)).2
     (fun l _ hl _ => absurd hl (Nat.not_lt_zero l))⟩

/-- C10: a file whose store column is found but which lacks one of the other
ten key columns (exact stripped header names) makes the run end in the uncaught
KeyError raised by `df_part[KEY_COLS + new_cols]`, not in the reported
structural error. -/
theorem c10_missing_key_column (files : List SrcFile) (i : Nat) (f : SrcFile)
    (hif : files[i]? = some f) (hex : extract_alloc f ≠ none)
    (hkeymiss : ∃ c ∈ KEY_COLS, c ∉ (exDF f).cols)
    (hprev : ∀ l g, l < i → files[l]? = some g →
      extract_alloc g ≠ none ∧ ∀ c ∈ KEY_COLS, c ∈ (exDF g).cols) :
    runApp files = RunResult.keyError ∧ runApp files ≠ RunResult.fatalError := by
  have hne : files ≠ [] := by
    intro he
    rw [he] at hif
    simp at hif
  have hkey : runApp files = RunResult.keyError := by
    unfold runApp
    rw [if_neg hne, runFiles_keyErr_at files initState i f hif hex hkeymiss hprev]
  refine ⟨hkey, ?_⟩
  rw [hkey]
  exact fun h => RunResult.noConfusion h

theorem c10_witness :
    runApp [fileK] = RunResult.keyError ∧ runApp [fileK] ≠ RunResult.fatalError :=
  c10_missing_key_column [fileK] 0 fileK rfl (by decide)
    ⟨"Store Name", by decide, by decide⟩
    (fun l _ hl _ => absurd hl (Nat.not_lt_zero l))

theorem lt_length_of_getElem?_eq_some {α : Type _} : ∀ (l : List α) (i : Nat) (a : α),
    l[i]? = some a → i < l.length := by
  intro l
  induction l with
  | nil => intro i a h; simp at h
  | cons x xs ih =>
    intro i a h
    cases i with
    | zero => simp
    | succ i =>
      simp only [List.getElem?_cons_succ] at h
      exact Nat.succ_lt_succ (ih i a h)

theorem getElem?_take_of_lt {α : Type _} : ∀ (l : List α) (n i : Nat),
    i < n → (l.take n)[i]? = l[i]? := by
  intro l
  induction l with
  | nil => intro n i _; simp
  | cons x xs ih =>
    intro n i h
    cases n with
    | zero => exact absurd h (Nat.not_lt_zero i)
    | succ n =>
      cases i with
      | zero => simp
      | succ i =>
        simpa using ih n i (Nat.lt_of_succ_lt_succ h)

theorem drop_eq_cons_of_getElem? {α : Type _} : ∀ (l : List α) (n : Nat) (a : α),
    l[n]? = some a → l.drop n = a :: l.drop (n + 1) := by
  intro l
  induction l with
  | nil => intro n a h; simp at h
  | cons x xs ih =>
    intro n a h
    cases n with
    | zero =>
      simp only [List.getElem?_cons_zero, Option.some.injEq] at h
      subst h
      simp
    | succ n =>
      simp only [List.getElem?_cons_succ] at h
      simpa using ih n a h

theorem getElem?_eq_some_of_lt {α : Type _} : ∀ (l : List α) (k : Nat),
    k < l.length → ∃ a, l[k]? = some a := by
  intro l
  induction l with
  | nil => intro k h; exact absurd h (by simp)
  | cons x xs ih =>
    intro k h
    cases k with
    | zero => exact ⟨x, by simp⟩
    | succ k =>
      obtain ⟨a, ha⟩ := ih k (Nat.lt_of_succ_lt_succ h)
      exact ⟨a, by rw [List.getElem?_cons_succ]; exact ha⟩

theorem getElem?_of_mem {α : Type _} : ∀ (l : List α) (a : α),
    a ∈ l → ∃ k : Nat, l[k]? = some a := by
  intro l
  induction l with
  | nil => intro a h; simp at h
  | cons x xs ih =>
    intro a h
    rcases List.mem_cons.mp h with he | hm
    · exact ⟨0, by simp [he]⟩
    · obtain ⟨k, hk⟩ := ih a hm
      exact ⟨k + 1, by rw [List.getElem?_cons_succ]; exact hk⟩

theorem count_filter_of_pos {p : String → Bool} : ∀ (l : List String) (a : String),
    p a = true → (l.filter p).count a = l.count a := by
  intro l a hp
  induction l with
  | nil => rfl
  | cons x xs ih =>
    by_cases hx : p x = true
    · rw [List.filter_cons_of_pos hx, List.count_cons, List.count_cons, ih]
    · rw [List.filter_cons_of_neg (by simpa using hx), ih, List.count_cons]
      have hxa : ¬ x = a := by
        intro he
        rw [he] at hx
        exact hx hp
      have hax : ¬ a = x := fun he => hxa he.symm
      simp [hxa, hax]

/-- C2: if the same item reference appears as a column in two different
uploaded files of a run that produced an output, the reference is reported in
the duplicate list (the run still succeeds, so it is a warning, not an error),
the merged table's column list contains that reference exactly once, and the
column survives only in the kept table of the first file carrying it: every
other kept per-file table lacks the column and so contributes only null cells
for it. -/
theorem c2_duplicate_first_wins (files : List SrcFile) (master : DF) (meta0 : Meta)
    (dups : List String) (hrun : runApp files = RunResult.output master meta0 dups)
    (ref : String) (i j : Nat) (fi fj : SrcFile)
    (hij : i < j) (hi : files[i]? = some fi) (hj : files[j]? = some fj)
    (hri : ref ∈ itemCols (exDF fi)) (hrj : ref ∈ itemCols (exDF fj))
    (hfirst : ∀ l g, l < i → files[l]? = some g → ref ∉ itemCols (exDF g)) :
    ref ∈ dups ∧
    master.cols.count ref = 1 ∧
    (keptTables files).length = files.length ∧
    master = merge_allocations (keptTables files) ∧
    (∀ k df', (keptTables files)[k]? = some df' → (ref ∈ df'.cols ↔ k = i)) ∧
    (∀ k df', (keptTables files)[k]? = some df' → k ≠ i →
      ∀ r ∈ df'.rows, cellAt df' r ref = Cell.null) := by
  have hne : files ≠ [] := by
    intro he
    rw [he] at hi
    simp at hi
  unfold runApp at hrun
  rw [if_neg hne] at hrun
  cases hr : runFiles initState files with
  | fatal =>
    simp only [hr] at hrun
    exact RunResult.noConfusion hrun
  | keyErr =>
    simp only [hr] at hrun
    exact RunResult.noConfusion hrun
  | ok st =>
    simp only [hr] at hrun
    injection hrun with hm hmm hd
    have hkept : keptTables files = st.dfs := by
      unfold keptTables
      rw [hr]
    have hrefnk : ref ∉ KEY_COLS := by
      have h0 := List.mem_filter.mp hri
      simpa using h0.2
    have hrefsn : ref ≠ "Store Number" := by
      intro he
      rw [he] at hrefnk
      exact hrefnk (by decide)
    have hdup : ref ∈ st.dups := by
      have hsplit := runFiles_append (files.take j) (files.drop j) initState
      rw [List.take_append_drop, hr] at hsplit
      cases hrt : runFiles initState (files.take j) with
      | fatal =>
        simp only [hrt] at hsplit
        exact LoopOutcome.noConfusion hsplit
      | keyErr =>
        simp only [hrt] at hsplit
        exact LoopOutcome.noConfusion hsplit
      | ok stJ =>
        simp only [hrt] at hsplit
        have hfi_mem : fi ∈ files.take j :=
          mem_of_getElem?_eq_some _ i fi (by rw [getElem?_take_of_lt files j i hij]; exact hi)
        have hseenJ : ref ∈ stJ.seen :=
          (runFiles_seen_mem (files.take j) initState stJ hrt ref).mpr
            (Or.inr ⟨fi, hfi_mem, hri⟩)
        have hdropj : files.drop j = fj :: files.drop (j + 1) :=
          drop_eq_cons_of_getElem? files j fj hj
        rw [hdropj] at hsplit
        cases hx : extract_alloc fj with
        | none =>
          simp only [runFiles, hx] at hsplit
          exact LoopOutcome.noConfusion hsplit
        | some pair =>
          obtain ⟨df, mp⟩ := pair
          have hdfeq : exDF fj = df := exDF_eq fj df mp hx
          simp only [runFiles, hx] at hsplit
          by_cases hkeyj : ∀ c ∈ KEY_COLS, c ∈ df.cols
          · rw [if_pos hkeyj] at hsplit
            have hdupJ1 : ref ∈ (classify stJ.seen (itemCols df)).2.2 :=
              classify_dup_of (itemCols df) stJ.seen ref (hdfeq ▸ hrj) hseenJ
            exact runFiles_dups_mono _ _ st hsplit.symm ref (List.mem_append_right _ hdupJ1)
          · rw [if_neg hkeyj] at hsplit
            exact LoopOutcome.noConfusion hsplit
    obtain ⟨tail, htail, hlen, hchar⟩ := runFiles_kept files initState st hr
    have htl : st.dfs = tail := by simpa [initState] using htail
    have hkey_mem : ∀ k df', tail[k]? = some df' → (ref ∈ df'.cols ↔ k = i) := by
      intro k df' hk
      have hklen : k < tail.length := lt_length_of_getElem?_eq_some tail k df' hk
      have hkfiles : k < files.length := by rw [← hlen]; exact hklen
      obtain ⟨fk, hfk⟩ := getElem?_eq_some_of_lt files k hkfiles
      obtain ⟨new, hsel, hnodup, hmemchar⟩ := hchar k fk hfk
      rw [hk] at hsel
      have hdf' : df' = selectCols (exDF fk) (KEY_COLS ++ new) := Option.some.inj hsel
      subst hdf'
      show ref ∈ KEY_COLS ++ new ↔ k = i
      constructor
      · intro hrefmem
        rcases List.mem_append.mp hrefmem with hA | hB
        · exact absurd hA hrefnk
        · have h3 := (hmemchar ref).mp hB
          by_contra hki
          rcases Nat.lt_or_ge k i with hlt | hge
          · exact hfirst k fk hlt hfk h3.1
          · have hgt : i < k := Nat.lt_of_le_of_ne hge (fun he => hki he.symm)
            exact h3.2.2 i fi hgt hi hri
      · intro hki
        subst hki
        have hfkfi : fk = fi := by
          rw [hfk] at hi
          exact Option.some.inj hi
        refine List.mem_append_right _ ((hmemchar ref).mpr ⟨?_, ?_, ?_⟩)
        · rw [hfkfi]
          exact hri
        · simp [initState]
        · exact fun l g hl hg => hfirst l g hl hg
    have hcols_nodup : ∀ df', df' ∈ tail → df'.cols.Nodup := by
      intro df' hdmem
      obtain ⟨k, hk⟩ := getElem?_of_mem tail df' hdmem
      have hklen : k < tail.length := lt_length_of_getElem?_eq_some tail k df' hk
      obtain ⟨fk, hfk⟩ := getElem?_eq_some_of_lt files k (by rw [← hlen]; exact hklen)
      obtain ⟨new, hsel, hnodup, hmemchar⟩ := hchar k fk hfk
      rw [hk] at hsel
      have hdf' : df' = selectCols (exDF fk) (KEY_COLS ++ new) := Option.some.inj hsel
      subst hdf'
      show (KEY_COLS ++ new).Nodup
      refine List.Nodup.append (by decide) hnodup ?_
      intro a haK haN
      have ha1 := ((hmemchar a).mp haN).1
      have ha2 : a ∉ KEY_COLS := by simpa using (List.mem_filter.mp ha1).2
      exact ha2 haK
    have htne : tail ≠ [] := by
      intro he
      rw [he] at hlen
      exact hne (List.length_eq_zero.mp hlen.symm)
    have hilen : i < tail.length := by
      rw [hlen]
      exact Nat.lt_trans hij (lt_length_of_getElem?_eq_some files j fj hj)
    obtain ⟨dfi', hdfi'⟩ := getElem?_eq_some_of_lt tail i hilen
    have hrefin : ref ∈ dfi'.cols := (hkey_mem i dfi' hdfi').mpr rfl
    have hcount : (merge_allocations tail).cols.count ref = 1 := by
      rw [merge_cols tail htne]
      unfold mergedCols
      rw [List.count_cons]
      have hbeq : ¬ (("Store Number" == ref) = true) := by
        simp only [beq_iff_eq]
        exact fun he => hrefsn he.symm
      rw [if_neg hbeq, Nat.add_zero]
      rw [count_filter_of_pos ((combinedOf tail).cols) ref (by simp [hrefsn])]
      have hcc : (combinedOf tail).cols = unionCols (tail.map DF.cols) := rfl
      rw [hcc]
      refine List.count_eq_one_of_mem ?_ ?_
      · refine unionCols_nodup _ (fun cs hcs => ?_)
        obtain ⟨df', hdmem, hcseq⟩ := List.mem_map.mp hcs
        rw [← hcseq]
        exact hcols_nodup df' hdmem
      · exact (unionCols_mem _ ref).mpr
          ⟨dfi'.cols, List.mem_map.mpr ⟨dfi', mem_of_getElem?_eq_some tail i dfi' hdfi', rfl⟩,
           hrefin⟩
    have hnull : ∀ k df', tail[k]? = some df' → k ≠ i →
        ∀ r ∈ df'.rows, cellAt df' r ref = Cell.null := by
      intro k df' hk hki r hrmem
      have hnm : ref ∉ df'.cols := fun hmem => hki ((hkey_mem k df' hk).mp hmem)
      exact cellAt_of_not_mem df' r ref hnm
    refine ⟨?_, ?_, ?_, ?_, ?_, ?_⟩
    · rw [← hd]
      exact hdup
    · rw [← hm, htl]
      exact hcount
    · rw [hkept, htl]
      exact hlen
    · rw [hkept, htl, ← hm, htl]
    · rw [hkept, htl]
      exact hkey_mem
    · rw [hkept, htl]
      exact hnull

theorem c2_witness :
    "R1" ∈ dupsOf [fileA, fileB] ∧
    (masterOf [fileA, fileB]).cols.count "R1" = 1 ∧
    (keptTables [fileA, fileB]).length = [fileA, fileB].length ∧
    masterOf [fileA, fileB] = merge_allocations (keptTables [fileA, fileB]) ∧
    (∀ k df', (keptTables [fileA, fileB])[k]? = some df' → ("R1" ∈ df'.cols ↔ k = 0)) ∧
    (∀ k df', (keptTables [fileA, fileB])[k]? = some df' → k ≠ 0 →
      ∀ r ∈ df'.rows, cellAt df' r "R1" = Cell.null) :=
  c2_duplicate_first_wins [fileA, fileB] (masterOf [fileA, fileB]) (metaOf [fileA, fileB])
    (dupsOf [fileA, fileB]) (by decide) "R1" 0 1 fileA fileB (by decide) rfl rfl
    (by decide) (by decide) (fun l _ hl _ => absurd hl (Nat.not_lt_zero l))
